import Mathlib

/-!
Shallow embedding of the position/plan lifecycle engine of the AITrader
repository (`src/executor/simulated_executor.py` and `src/persistence.py`).

Modelling conventions:
* Python floats are modelled as exact rationals (`ℚ`); `int` as `ℤ`.
* `datetime.now()` is modelled by an explicit `now : ℕ` argument threaded
  into every operation that records a timestamp.
* `uuid`-based identifiers are modelled by a fresh-id counter `nextId : ℕ`
  carried in the executor state; the Python `Dict[str, Position]` /
  `Dict[str, TradingPlan]` (insertion-ordered, keyed by the entity's own id)
  are modelled as insertion-ordered lists of entities looked up by id.
* Error-message strings (Chinese f-strings with numeric interpolation) are
  modelled by inductive error codes, one per `return False, ...` site.
* The `on_state_change` callback and the `trade_history` audit log are pure
  side channels read by no claim; they are not part of the modelled state.
-/

namespace AITrader

/-- `Direction` enum of the source: `LONG = "long"`, `SHORT = "short"`. -/
inductive Direction where
  | long
  | short
deriving DecidableEq, Repr

/-- Python `Direction(...).value`. -/
def Direction.value : Direction → String
  | .long => "long"
  | .short => "short"

/-- Python `Direction(s)` constructor: raises `ValueError` on any other
string, modelled by `Option`. -/
def Direction.ofString : String → Option Direction
  | "long" => some .long
  | "short" => some .short
  | _ => none

/-- `PositionStatus` enum: `OPEN = "open"`, `CLOSED = "closed"`
(`open` is a Lean keyword, hence `opn`). -/
inductive PositionStatus where
  | opn
  | closed
deriving DecidableEq, Repr

def PositionStatus.value : PositionStatus → String
  | .opn => "open"
  | .closed => "closed"

def PositionStatus.ofString : String → Option PositionStatus
  | "open" => some .opn
  | "closed" => some .closed
  | _ => none

/-- `PlanStatus` enum: `PENDING`, `TRIGGERED`, `CANCELLED`. -/
inductive PlanStatus where
  | pending
  | triggered
  | cancelled
deriving DecidableEq, Repr

def PlanStatus.value : PlanStatus → String
  | .pending => "pending"
  | .triggered => "triggered"
  | .cancelled => "cancelled"

def PlanStatus.ofString : String → Option PlanStatus
  | "pending" => some .pending
  | "triggered" => some .triggered
  | "cancelled" => some .cancelled
  | _ => none

/-- `@dataclass Position` of the source. -/
structure Position where
  id : ℕ
  symbol : String
  direction : Direction
  entry_price : ℚ
  amount : ℚ
  leverage : ℤ
  stop_loss : ℚ
  take_profit : ℚ
  open_time : ℕ
  status : PositionStatus := .opn
  close_time : Option ℕ := none
  close_price : Option ℚ := none
  realized_pnl : ℚ := 0
deriving DecidableEq, Repr

/-- `Position.margin_used` property: `self.amount / self.leverage`. -/
def Position.margin_used (p : Position) : ℚ :=
  p.amount / (p.leverage : ℚ)

/-- `Position.unrealized_pnl(current_price)`. -/
def Position.unrealized_pnl (p : Position) (current_price : ℚ) : ℚ :=
  if p.status = .closed then 0
  else if p.direction = .long then
    (current_price - p.entry_price) * p.amount / p.entry_price
  else
    (p.entry_price - current_price) * p.amount / p.entry_price

/-- Result of `Position.check_stop_loss_take_profit`. -/
inductive SLTPTrigger where
  | stop_loss
  | take_profit
deriving DecidableEq, Repr

/-- `Position.check_stop_loss_take_profit(current_price)`: returns
`"stop_loss"` / `"take_profit"` / `None`. -/
def Position.check_stop_loss_take_profit (p : Position) (current_price : ℚ) :
    Option SLTPTrigger :=
  if p.direction = .long then
    if current_price ≤ p.stop_loss then some .stop_loss
    else if current_price ≥ p.take_profit then some .take_profit
    else none
  else
    if current_price ≥ p.stop_loss then some .stop_loss
    else if current_price ≤ p.take_profit then some .take_profit
    else none

/-- `@dataclass TradingPlan` of the source. -/
structure TradingPlan where
  id : ℕ
  symbol : String
  trigger_price : ℚ
  direction : Direction
  amount : ℚ
  leverage : ℤ
  stop_loss : ℚ
  take_profit : ℚ
  create_time : ℕ
  status : PlanStatus := .pending
deriving DecidableEq, Repr

/-- `TradingPlan.check_trigger(current_price, last_price)`. -/
def TradingPlan.check_trigger (pl : TradingPlan) (current_price last_price : ℚ) :
    Bool :=
  if pl.status ≠ .pending then false
  else if pl.direction = .long then
    decide (last_price < pl.trigger_price ∧ pl.trigger_price ≤ current_price)
  else
    decide (last_price > pl.trigger_price ∧ pl.trigger_price ≥ current_price)

/-- `@dataclass Account` (derived snapshot returned by `get_account_info`). -/
structure Account where
  total_balance : ℚ
  available : ℚ
  margin_used : ℚ
  unrealized_pnl : ℚ
deriving DecidableEq, Repr

/-- `Account.equity` property. -/
def Account.equity (a : Account) : ℚ :=
  a.total_balance + a.unrealized_pnl

/-- State of `class SimulatedExecutor` (constructor parameters plus the
mutable ledger fields). -/
structure ExecState where
  initial_balance : ℚ
  fee_rate : ℚ
  max_position_ratio : ℚ
  max_leverage : ℤ
  min_stop_loss_percent : ℚ
  total_balance : ℚ
  positions : List Position := []
  plans : List TradingPlan := []
  last_price : Option ℚ := none
  nextId : ℕ := 0
deriving DecidableEq, Repr

/-- `SimulatedExecutor.__init__`. -/
def ExecState.init (initial_balance fee_rate max_position_ratio : ℚ)
    (max_leverage : ℤ) (min_stop_loss_percent : ℚ) : ExecState :=
  { initial_balance := initial_balance
    fee_rate := fee_rate
    max_position_ratio := max_position_ratio
    max_leverage := max_leverage
    min_stop_loss_percent := min_stop_loss_percent
    total_balance := initial_balance }

/-- Python truthiness of `self.last_price` (`None` and `0.0` are falsy),
used by the `if self.last_price` guard in `get_account_info`. -/
def lastPriceTruthy : Option ℚ → Bool
  | none => false
  | some p => decide (p ≠ 0)

/-- `SimulatedExecutor.get_account_info`: note that `margin_used` sums over
ALL stored positions (no status filter in the source), while
`unrealized_pnl` is summed only when `self.last_price` is truthy. -/
def ExecState.get_account_info (s : ExecState) : Account :=
  let margin_used := (s.positions.map Position.margin_used).sum
  let unrealized_pnl :=
    match s.last_price with
    | none => 0
    | some p => if p ≠ 0 then (s.positions.map (·.unrealized_pnl p)).sum else 0
  { total_balance := s.total_balance
    available := s.total_balance - margin_used
    margin_used := margin_used
    unrealized_pnl := unrealized_pnl }

/-- Error codes of `validate_position`, one per `return False, ...` site. -/
inductive ValidateReason where
  | passed
  | insufficientAvailable
  | exceedsMaxPositionRatio
  | exceedsMaxLeverage
  | stopLossTooClose
  | longStopNotBelowEntry
  | shortStopNotAboveEntry
deriving DecidableEq, Repr

/-- `SimulatedExecutor.validate_position(amount, leverage, stop_loss,
entry_price, direction)`, rules checked in source order. -/
def ExecState.validate_position (s : ExecState) (amount : ℚ) (leverage : ℤ)
    (stop_loss entry_price : ℚ) (direction : Direction) :
    Bool × ValidateReason :=
  let account := s.get_account_info
  let margin_needed := amount / (leverage : ℚ)
  if margin_needed > account.available then
    (false, .insufficientAvailable)
  else if amount > s.total_balance * s.max_position_ratio then
    (false, .exceedsMaxPositionRatio)
  else if leverage > s.max_leverage then
    (false, .exceedsMaxLeverage)
  else if |entry_price - stop_loss| / entry_price < s.min_stop_loss_percent then
    (false, .stopLossTooClose)
  else if direction = .long ∧ stop_loss ≥ entry_price then
    (false, .longStopNotBelowEntry)
  else if direction = .short ∧ stop_loss ≤ entry_price then
    (false, .shortStopNotAboveEntry)
  else
    (true, .passed)

/-- Lookup of `self.positions[position_id]` (and the `in` membership test)
on the id-keyed dict, modelled on the ordered list. -/
def ExecState.findPos (s : ExecState) (position_id : ℕ) : Option Position :=
  s.positions.find? (·.id = position_id)

/-- Lookup of `self.plans[plan_id]`. -/
def ExecState.findPlan (s : ExecState) (plan_id : ℕ) : Option TradingPlan :=
  s.plans.find? (·.id = plan_id)

/-- Outcome dict of `open_position`: either `{"success": False, "error": …}`
or `{"success": True, "position_id": …, "entry_price": …, "fee": …}`. -/
inductive OpenOutcome where
  | invalidDirection
  | rejected (reason : ValidateReason)
  | success (position_id : ℕ) (entry_price fee : ℚ)
deriving DecidableEq, Repr

def OpenOutcome.isSuccess : OpenOutcome → Bool
  | .success _ _ _ => true
  | _ => false

/-- `SimulatedExecutor.open_position(symbol, direction, amount, leverage,
stop_loss, take_profit, current_price)`. The direction arrives as a string
and is parsed with `Direction(direction)`. -/
def ExecState.open_position (s : ExecState) (symbol : String)
    (direction : String) (amount : ℚ) (leverage : ℤ)
    (stop_loss take_profit current_price : ℚ) (now : ℕ) :
    ExecState × OpenOutcome :=
  match Direction.ofString direction with
  | none => (s, .invalidDirection)
  | some dir =>
    let (valid, reason) :=
      s.validate_position amount leverage stop_loss current_price dir
    if valid then
      let fee := amount * s.fee_rate
      let position : Position :=
        { id := s.nextId
          symbol := symbol
          direction := dir
          entry_price := current_price
          amount := amount
          leverage := leverage
          stop_loss := stop_loss
          take_profit := take_profit
          open_time := now }
      ({ s with
          total_balance := s.total_balance - fee
          positions := s.positions ++ [position]
          nextId := s.nextId + 1 },
       .success s.nextId current_price fee)
    else
      (s, .rejected reason)

/-- Outcome dict of `close_position`. -/
inductive CloseOutcome where
  | notFound
  | invalidRatio
  | alreadyClosed
  | success (closed_amount realized_pnl fee : ℚ)
deriving DecidableEq, Repr

def CloseOutcome.isSuccess : CloseOutcome → Bool
  | .success _ _ _ => true
  | _ => false

/-- `SimulatedExecutor.close_position(position_id, ratio, current_price)`:
checks, in source order, existence, `0 < ratio ≤ 1`, and that the position
is not already closed; realizes PnL minus fee into `total_balance`; a ratio
`≥ 0.9999` closes the position and sets the terminal fields, otherwise the
amount shrinks by the closed fraction. -/
def ExecState.close_position (s : ExecState) (position_id : ℕ) (ratio : ℚ)
    (current_price : ℚ) (now : ℕ) : ExecState × CloseOutcome :=
  match s.findPos position_id with
  | none => (s, .notFound)
  | some position =>
    if ratio ≤ 0 ∨ ratio > 1 then (s, .invalidRatio)
    else if position.status = .closed then (s, .alreadyClosed)
    else
      let close_amount := position.amount * ratio
      let fee := close_amount * s.fee_rate
      let pnl :=
        if position.direction = .long then
          (current_price - position.entry_price) * close_amount
            / position.entry_price
        else
          (position.entry_price - current_price) * close_amount
            / position.entry_price
      let realized_pnl := pnl - fee
      let position' :=
        if ratio ≥ 9999 / 10000 then
          { position with
              status := .closed
              close_time := some now
              close_price := some current_price
              realized_pnl := realized_pnl }
        else
          { position with amount := position.amount * (1 - ratio) }
      ({ s with
          total_balance := s.total_balance + realized_pnl
          positions := s.positions.map fun q =>
            if q.id = position_id then position' else q },
       .success close_amount realized_pnl fee)

/-- Generic `{"success": …}` outcome used by the modify/cancel commands. -/
inductive CmdOutcome where
  | notFound
  | invalidState
  | success
deriving DecidableEq, Repr

/-- `SimulatedExecutor.modify_position(position_id, stop_loss, take_profit)`:
no status check — a closed position can still be edited. -/
def ExecState.modify_position (s : ExecState) (position_id : ℕ)
    (stop_loss take_profit : Option ℚ) : ExecState × CmdOutcome :=
  match s.findPos position_id with
  | none => (s, .notFound)
  | some position =>
    let position' :=
      { position with
          stop_loss := stop_loss.getD position.stop_loss
          take_profit := take_profit.getD position.take_profit }
    ({ s with
        positions := s.positions.map fun q =>
          if q.id = position_id then position' else q },
     .success)

/-- Outcome of `create_plan`. -/
inductive PlanOutcome where
  | invalidDirection
  | rejected (reason : ValidateReason)
  | success (plan_id : ℕ)
deriving DecidableEq, Repr

/-- `SimulatedExecutor.create_plan(symbol, trigger_price, direction, amount,
leverage, stop_loss, take_profit)`: validates with the trigger price in the
entry-price slot, then stores a pending plan. -/
def ExecState.create_plan (s : ExecState) (symbol : String)
    (trigger_price : ℚ) (direction : String) (amount : ℚ) (leverage : ℤ)
    (stop_loss take_profit : ℚ) (now : ℕ) : ExecState × PlanOutcome :=
  match Direction.ofString direction with
  | none => (s, .invalidDirection)
  | some dir =>
    let (valid, reason) :=
      s.validate_position amount leverage stop_loss trigger_price dir
    if valid then
      let plan : TradingPlan :=
        { id := s.nextId
          symbol := symbol
          trigger_price := trigger_price
          direction := dir
          amount := amount
          leverage := leverage
          stop_loss := stop_loss
          take_profit := take_profit
          create_time := now }
      ({ s with plans := s.plans ++ [plan], nextId := s.nextId + 1 },
       .success s.nextId)
    else
      (s, .rejected reason)

/-- The keyword arguments of `modify_plan(plan_id, **kwargs)` as used
through the command surface: each data field may be supplied or omitted
(`None`-valued kwargs are skipped by the source's `value is not None`
guard, so omission and `None` coincide). -/
structure PlanKwargs where
  symbol : Option String := none
  trigger_price : Option ℚ := none
  direction : Option Direction := none
  amount : Option ℚ := none
  leverage : Option ℤ := none
  stop_loss : Option ℚ := none
  take_profit : Option ℚ := none
deriving DecidableEq, Repr

/-- `SimulatedExecutor.modify_plan(plan_id, **kwargs)`: fails on an unknown
id, fails (`只能修改待触发的计划`) when the plan is not pending, otherwise
overwrites exactly the supplied fields. -/
def ExecState.modify_plan (s : ExecState) (plan_id : ℕ) (kw : PlanKwargs) :
    ExecState × CmdOutcome :=
  match s.findPlan plan_id with
  | none => (s, .notFound)
  | some plan =>
    if plan.status ≠ .pending then (s, .invalidState)
    else
      let plan' :=
        { plan with
            symbol := kw.symbol.getD plan.symbol
            trigger_price := kw.trigger_price.getD plan.trigger_price
            direction := kw.direction.getD plan.direction
            amount := kw.amount.getD plan.amount
            leverage := kw.leverage.getD plan.leverage
            stop_loss := kw.stop_loss.getD plan.stop_loss
            take_profit := kw.take_profit.getD plan.take_profit }
      ({ s with
          plans := s.plans.map fun q =>
            if q.id = plan_id then plan' else q },
       .success)

/-- `SimulatedExecutor.cancel_plan(plan_id)`: no status check — the plan is
marked cancelled whatever its current status. -/
def ExecState.cancel_plan (s : ExecState) (plan_id : ℕ) :
    ExecState × CmdOutcome :=
  match s.findPlan plan_id with
  | none => (s, .notFound)
  | some _ =>
    ({ s with
        plans := s.plans.map fun q =>
          if q.id = plan_id then { q with status := .cancelled } else q },
     .success)

/-- One entry of the `triggered_plans` list: `{"plan_id": …, "result": …}`. -/
structure TriggeredEntry where
  plan_id : ℕ
  result : OpenOutcome
deriving DecidableEq, Repr

/-- `plan.status = PlanStatus.TRIGGERED` applied to the stored plan object,
modelled on the id-keyed list. -/
def ExecState.markPlanTriggered (s : ExecState) (plan_id : ℕ) : ExecState :=
  { s with
      plans := s.plans.map fun q =>
        if q.id = plan_id then { q with status := .triggered } else q }

/-- One iteration of the `for plan in list(self.plans.values())` loop of
`check_and_trigger_plans`: `plan` is the snapshot entry, the state threads
left-to-right exactly as the Python loop mutates `self`. -/
def ctpStep (current_price last_price : ℚ) (now : ℕ)
    (acc : ExecState × List TriggeredEntry) (plan : TradingPlan) :
    ExecState × List TriggeredEntry :=
  let (st, triggered) := acc
  if plan.check_trigger current_price last_price then
    let (st', result) :=
      st.open_position plan.symbol plan.direction.value plan.amount
        plan.leverage plan.stop_loss plan.take_profit current_price now
    (st'.markPlanTriggered plan.id, triggered ++ [⟨plan.id, result⟩])
  else
    (st, triggered)

/-- `SimulatedExecutor.check_and_trigger_plans(current_price)`: on the first
price (`last_price is None`) it only seeds the cursor; otherwise it walks a
snapshot of the plans, fires each whose trigger condition crosses, opens a
position at the current price, and marks the plan triggered regardless of
the open's outcome. -/
def ExecState.check_and_trigger_plans (s : ExecState) (current_price : ℚ)
    (now : ℕ) : ExecState × List TriggeredEntry :=
  match s.last_price with
  | none => ({ s with last_price := some current_price }, [])
  | some last_price =>
    s.plans.foldl (ctpStep current_price last_price now) (s, [])

/-- One entry of the `auto_closed` list. -/
structure AutoClosedEntry where
  position_id : ℕ
  trigger : SLTPTrigger
  result : CloseOutcome
deriving DecidableEq, Repr

/-- One iteration of the `for pos in list(self.positions.values())` loop of
`check_stop_loss_take_profit`: `pos` is the snapshot entry, the state
threads left-to-right. -/
def sltpStep (current_price : ℚ) (now : ℕ)
    (acc : ExecState × List AutoClosedEntry) (pos : Position) :
    ExecState × List AutoClosedEntry :=
  let (st, closed) := acc
  if pos.status = .opn then
    match pos.check_stop_loss_take_profit current_price with
    | some trigger =>
      let (st', result) := st.close_position pos.id 1 current_price now
      (st', closed ++ [⟨pos.id, trigger, result⟩])
    | none => (st, closed)
  else
    (st, closed)

/-- `SimulatedExecutor.check_stop_loss_take_profit(current_price)`: walks a
snapshot of the positions and fully closes every open one whose stop-loss
or take-profit condition holds at the current price. -/
def ExecState.check_sltp (s : ExecState) (current_price : ℚ) (now : ℕ) :
    ExecState × List AutoClosedEntry :=
  s.positions.foldl (sltpStep current_price now) (s, [])

/-- Return value of `update_price`. -/
structure UpdateResult where
  triggered_plans : List TriggeredEntry
  auto_closed_positions : List AutoClosedEntry
deriving DecidableEq, Repr

/-- `SimulatedExecutor.update_price(current_price)`: plan-trigger pass, then
stop-loss/take-profit pass, then the price cursor moves. -/
def ExecState.update_price (s : ExecState) (current_price : ℚ) (now : ℕ) :
    ExecState × UpdateResult :=
  let (s1, triggered) := s.check_and_trigger_plans current_price now
  let (s2, closed) := s1.check_sltp current_price now
  ({ s2 with last_price := some current_price }, ⟨triggered, closed⟩)

/-! ### Persistence (`src/persistence.py`)

The JSON file layer is modelled by a `Snapshot` value: `save_state` builds
it, `load_state` returns it unchanged (reading back the written file), and
`restore_executor` rebuilds the executor from it. ISO-8601 timestamp text
(`isoformat` / `fromisoformat`) is modelled by carrying the timestamp value
through the serialized form; enum members are serialized to their string
labels exactly as `…​.value` does and parsed back with the enum
constructors, whose `ValueError` is an `Option` failure. -/

/-- One entry of the serialized `positions` dict. -/
structure SerializedPosition where
  id : ℕ
  symbol : String
  direction : String
  entry_price : ℚ
  amount : ℚ
  leverage : ℤ
  stop_loss : ℚ
  take_profit : ℚ
  open_time : ℕ
  status : String
  close_time : Option ℕ
  close_price : Option ℚ
  realized_pnl : ℚ
deriving DecidableEq, Repr

/-- `StatePersistence._serialize_positions`, per position. -/
def serializePosition (p : Position) : SerializedPosition :=
  { id := p.id
    symbol := p.symbol
    direction := p.direction.value
    entry_price := p.entry_price
    amount := p.amount
    leverage := p.leverage
    stop_loss := p.stop_loss
    take_profit := p.take_profit
    open_time := p.open_time
    status := p.status.value
    close_time := p.close_time
    close_price := p.close_price
    realized_pnl := p.realized_pnl }

/-- `StatePersistence._deserialize_positions`, per position; `Direction(…)`
and `PositionStatus(…)` can raise, hence `Option`. -/
def deserializePosition (d : SerializedPosition) : Option Position := do
  let direction ← Direction.ofString d.direction
  let status ← PositionStatus.ofString d.status
  pure
    { id := d.id
      symbol := d.symbol
      direction := direction
      entry_price := d.entry_price
      amount := d.amount
      leverage := d.leverage
      stop_loss := d.stop_loss
      take_profit := d.take_profit
      open_time := d.open_time
      status := status
      close_time := d.close_time
      close_price := d.close_price
      realized_pnl := d.realized_pnl }

/-- One entry of the serialized `plans` dict. -/
structure SerializedPlan where
  id : ℕ
  symbol : String
  trigger_price : ℚ
  direction : String
  amount : ℚ
  leverage : ℤ
  stop_loss : ℚ
  take_profit : ℚ
  create_time : ℕ
  status : String
deriving DecidableEq, Repr

/-- `StatePersistence._serialize_plans`, per plan. -/
def serializePlan (pl : TradingPlan) : SerializedPlan :=
  { id := pl.id
    symbol := pl.symbol
    trigger_price := pl.trigger_price
    direction := pl.direction.value
    amount := pl.amount
    leverage := pl.leverage
    stop_loss := pl.stop_loss
    take_profit := pl.take_profit
    create_time := pl.create_time
    status := pl.status.value }

/-- `StatePersistence._deserialize_plans`, per plan. -/
def deserializePlan (d : SerializedPlan) : Option TradingPlan := do
  let direction ← Direction.ofString d.direction
  let status ← PlanStatus.ofString d.status
  pure
    { id := d.id
      symbol := d.symbol
      trigger_price := d.trigger_price
      direction := direction
      amount := d.amount
      leverage := d.leverage
      stop_loss := d.stop_loss
      take_profit := d.take_profit
      create_time := d.create_time
      status := status }

/-- The persisted state file contents (`state` dict written by
`save_state`; the wall-clock `timestamp` field and the trimmed
`trade_history` window are read by no claim and are omitted). -/
structure Snapshot where
  cycle_count : ℕ
  total_balance : ℚ
  last_price : Option ℚ
  positions : List SerializedPosition
  plans : List SerializedPlan
deriving DecidableEq, Repr

/-- `StatePersistence.save_state(executor, cycle_count)`. -/
def save_state (s : ExecState) (cycle_count : ℕ) : Snapshot :=
  { cycle_count := cycle_count
    total_balance := s.total_balance
    last_price := s.last_price
    positions := s.positions.map serializePosition
    plans := s.plans.map serializePlan }

/-- The loop of `_deserialize_positions`, failing on the first entry whose
enum labels do not parse. -/
def deserializePositions : List SerializedPosition → Option (List Position)
  | [] => some []
  | d :: rest => do
    let p ← deserializePosition d
    let ps ← deserializePositions rest
    pure (p :: ps)

/-- The loop of `_deserialize_plans`. -/
def deserializePlans : List SerializedPlan → Option (List TradingPlan)
  | [] => some []
  | d :: rest => do
    let pl ← deserializePlan d
    let pls ← deserializePlans rest
    pure (pl :: pls)

/-- `StatePersistence.restore_executor(executor, state)`: overwrites the
executor's ledger fields from the snapshot and returns the persisted
`cycle_count`; a deserialization error is caught and yields 0 (the
partially-mutated Python state on that path is modelled as the untouched
input, a path no well-formed snapshot reaches). -/
def restore_executor (s : ExecState) (st : Snapshot) : ExecState × ℕ :=
  match deserializePositions st.positions, deserializePlans st.plans with
  | some positions, some plans =>
    ({ s with
        total_balance := st.total_balance
        last_price := st.last_price
        positions := positions
        plans := plans },
     st.cycle_count)
  | _, _ => (s, 0)

/-! ### Basic facts about the engine operations -/

theorem Direction.ofString_value (d : Direction) :
    Direction.ofString d.value = some d := by
  cases d <;> rfl

theorem Direction.long_ne_short : ¬(Direction.long = Direction.short) := by
  decide

theorem Direction.short_ne_long : ¬(Direction.short = Direction.long) := by
  decide

theorem PositionStatus.opn_ne_closed :
    ¬(PositionStatus.opn = PositionStatus.closed) := by decide

theorem PositionStatus.closed_ne_opn :
    ¬(PositionStatus.closed = PositionStatus.opn) := by decide

theorem PlanStatus.triggered_ne_pending :
    ¬(PlanStatus.triggered = PlanStatus.pending) := by decide

theorem PlanStatus.cancelled_ne_pending :
    ¬(PlanStatus.cancelled = PlanStatus.pending) := by decide

theorem PlanStatus.pending_ne_triggered :
    ¬(PlanStatus.pending = PlanStatus.triggered) := by decide

theorem PlanStatus.pending_ne_cancelled :
    ¬(PlanStatus.pending = PlanStatus.cancelled) := by decide

theorem deserialize_serialize_position (p : Position) :
    deserializePosition (serializePosition p) = some p := by
  rcases p with ⟨i, sym, dir, ep, a, lev, sl, tp, ot, st, ct, cp, rp⟩
  cases dir <;> cases st <;> rfl

theorem deserialize_serialize_plan (pl : TradingPlan) :
    deserializePlan (serializePlan pl) = some pl := by
  rcases pl with ⟨i, sym, trg, dir, a, lev, sl, tp, ct, st⟩
  cases dir <;> cases st <;> rfl

theorem deserializePositions_map_serialize (l : List Position) :
    deserializePositions (l.map serializePosition) = some l := by
  induction l with
  | nil => rfl
  | cons x xs ih =>
    simp [deserializePositions, deserialize_serialize_position, ih]

theorem deserializePlans_map_serialize (l : List TradingPlan) :
    deserializePlans (l.map serializePlan) = some l := by
  induction l with
  | nil => rfl
  | cons x xs ih =>
    simp [deserializePlans, deserialize_serialize_plan, ih]

/-- **C9.** For every ledger state, saving a snapshot with
`save_state(executor, cycle_count)` and then restoring it via `load_state`
and `restore_executor` into an executor reproduces `total_balance`,
`last_price`, every field of every position and plan, and returns the
persisted `cycle_count` rather than zero. -/
theorem C9_save_restore_roundtrip (s target : ExecState) (cycle_count : ℕ) :
    restore_executor target (save_state s cycle_count) =
      ({ target with
          total_balance := s.total_balance
          last_price := s.last_price
          positions := s.positions
          plans := s.plans },
       cycle_count) := by
  simp [restore_executor, save_state,
    deserializePositions_map_serialize, deserializePlans_map_serialize]

/-- **C4.** For every pending plan and every pair of consecutive prices
`(last, curr)`, the plan's trigger fires exactly when
`last < trigger_price ≤ curr` for a long plan, and exactly when
`last > trigger_price ≥ curr` for a short plan; a plan whose status is not
pending never fires. -/
theorem C4_check_trigger_iff (pl : TradingPlan) (curr last : ℚ) :
    pl.check_trigger curr last = true ↔
      pl.status = .pending ∧
        ((pl.direction = .long ∧
            last < pl.trigger_price ∧ pl.trigger_price ≤ curr) ∨
         (pl.direction = .short ∧
            last > pl.trigger_price ∧ pl.trigger_price ≥ curr)) := by
  rcases pl with ⟨i, sym, trg, dir, a, lev, sl, tp, ct, st⟩
  cases st <;> cases dir <;>
    simp [TradingPlan.check_trigger]

/-- A fresh executor used for the concrete take-profit example of C10:
initial balance 1000, zero fees, full position ratio allowed, max leverage
10, no minimum stop-loss distance. -/
def exC10 : ExecState := ExecState.init 1000 0 1 10 0

/-- **C10.** The risk validator never examines `take_profit`: for every two
`open_position` (or `create_plan`) calls whose arguments differ only in
`take_profit`, validation yields the same `(ok, reason)` outcome; in
particular a long position may be opened with `take_profit` at or below the
entry price without any error (here: entry 100, take-profit 50). -/
theorem C10_take_profit_never_validated :
    (∀ (s : ExecState) (symbol direction : String) (amount : ℚ) (leverage : ℤ)
       (stop_loss take_profit take_profit' current_price : ℚ) (now : ℕ),
       (s.open_position symbol direction amount leverage stop_loss
           take_profit current_price now).2 =
         (s.open_position symbol direction amount leverage stop_loss
             take_profit' current_price now).2) ∧
    (∀ (s : ExecState) (symbol : String) (trigger_price : ℚ)
       (direction : String) (amount : ℚ) (leverage : ℤ)
       (stop_loss take_profit take_profit' : ℚ) (now : ℕ),
       (s.create_plan symbol trigger_price direction amount leverage
           stop_loss take_profit now).2 =
         (s.create_plan symbol trigger_price direction amount leverage
             stop_loss take_profit' now).2) ∧
    ((50 : ℚ) ≤ 100 ∧
      (exC10.open_position "BTC" "long" 100 2 90 50 100 1).2 =
        .success 0 100 0) := by
  refine ⟨?_, ?_, ?_⟩
  · intro s symbol direction amount leverage stop_loss tp tp' cp now
    unfold ExecState.open_position
    cases Direction.ofString direction
    · rfl
    · simp only []
      split <;> rfl
  · intro s symbol trg direction amount leverage stop_loss tp tp' now
    unfold ExecState.create_plan
    cases Direction.ofString direction
    · rfl
    · simp only []
      split <;> rfl
  · constructor
    · norm_num
    · norm_num [exC10, ExecState.init, ExecState.open_position,
        ExecState.validate_position, ExecState.get_account_info,
        Direction.ofString, Position.margin_used, Direction.long_ne_short,
        Direction.short_ne_long]

/-! ### C1: the account snapshot versus the spec's account equations -/

/-- The margin figure as the spec words it: `Σ position.amount/leverage`
over OPEN positions only (closed positions contribute nothing). Written
from the spec for comparison with `get_account_info`. -/
def specOpenMarginUsed (s : ExecState) : ℚ :=
  ((s.positions.filter (·.status = .opn)).map Position.margin_used).sum

/-- The unrealized-PnL figure as the spec words it: summed over open
positions at the last price. -/
def specOpenUnrealized (s : ExecState) (p : ℚ) : ℚ :=
  ((s.positions.filter (·.status = .opn)).map (·.unrealized_pnl p)).sum

theorem margin_sum_split (l : List Position) :
    (l.map Position.margin_used).sum
      = ((l.filter (·.status = .opn)).map Position.margin_used).sum
        + ((l.filter (·.status = .closed)).map Position.margin_used).sum := by
  induction l with
  | nil => simp
  | cons x xs ih =>
    cases hx : x.status <;>
      simp [List.filter_cons, hx, ih] <;> ring

theorem unrealized_sum_eq_open_sum (l : List Position) (p : ℚ) :
    (l.map (·.unrealized_pnl p)).sum
      = ((l.filter (·.status = .opn)).map (·.unrealized_pnl p)).sum := by
  induction l with
  | nil => rfl
  | cons x xs ih =>
    cases hx : x.status
    · simp [List.filter_cons, hx, ih]
    · have hz : x.unrealized_pnl p = 0 := by
        simp [Position.unrealized_pnl, hx]
      simp [List.filter_cons, hx, hz, ih]

/-- Reachable state with one fully closed position: a fresh executor
(balance 1000, zero fees) opens a long position of amount 100 at leverage 2
and entry 100, … -/
def exC1open : ExecState :=
  ((ExecState.init 1000 0 1 10 0).open_position
      "BTC" "long" 100 2 50 200 100 1).1

/-- … then fully closes it at the entry price. The closed position stays in
the ledger with its amount intact. -/
def exC1 : ExecState := (exC1open.close_position 0 1 100 2).1

set_option maxRecDepth 4000 in
/-- **C1 (counterexample).** On a reachable ledger holding one closed
position (amount 100, leverage 2), `get_account_info` reports
`margin_used = 50` and `available = 950`, while the claim's open-only sums
give 0 and 1000: closed positions do contribute to `margin_used`. -/
theorem C1_counterexample :
    exC1.get_account_info.margin_used ≠ specOpenMarginUsed exC1 ∧
    exC1.get_account_info.available
      ≠ exC1.total_balance - specOpenMarginUsed exC1 := by
  constructor <;>
    norm_num [exC1, exC1open, ExecState.init, ExecState.open_position,
      ExecState.close_position, ExecState.get_account_info,
      ExecState.validate_position, ExecState.findPos, specOpenMarginUsed,
      Position.margin_used, Direction.ofString, List.find?,
      Direction.long_ne_short, Direction.short_ne_long,
      PositionStatus.opn_ne_closed, PositionStatus.closed_ne_opn]

/-- **C1 (amended).** For every ledger state, `get_account_info` returns
`margin_used` equal to the sum of `amount/leverage` over ALL stored
positions — the spec's open-only sum plus a contribution from every closed
position — and `available` equal to `total_balance` minus that
all-positions `margin_used`; whenever the last price is set and nonzero,
`equity` equals `total_balance` plus the sum of `unrealized_pnl` over open
positions. All recomputed from the stored positions on every call. -/
theorem C1_amended (s : ExecState) :
    s.get_account_info.margin_used
        = specOpenMarginUsed s
          + ((s.positions.filter (·.status = .closed)).map
              Position.margin_used).sum ∧
    s.get_account_info.available
        = s.total_balance - s.get_account_info.margin_used ∧
    (∀ p : ℚ, s.last_price = some p → p ≠ 0 →
      s.get_account_info.equity
        = s.total_balance + specOpenUnrealized s p) := by
  refine ⟨?_, ?_, ?_⟩
  · simp only [ExecState.get_account_info, specOpenMarginUsed]
    exact margin_sum_split s.positions
  · simp [ExecState.get_account_info]
  · intro p hp hp0
    simp only [ExecState.get_account_info, Account.equity,
      specOpenUnrealized, hp, hp0, ne_eq, not_false_eq_true, ite_true]
    rw [unrealized_sum_eq_open_sum]

/-- The C1 ledger with a last price of 100 set, as a concrete instance of
the amended account equations. -/
def exC1w : ExecState := { exC1 with last_price := some 100 }

/-- Witness for `C1_amended` at the concrete reachable states `exC1` (no
price set: the margin/available equations hold regardless) and `exC1w`
(price 100: the equity clause applies with its conditions discharged). -/
theorem C1_amended_witness :
    (exC1.get_account_info.margin_used
        = specOpenMarginUsed exC1
          + ((exC1.positions.filter (·.status = .closed)).map
              Position.margin_used).sum ∧
     exC1.get_account_info.available
        = exC1.total_balance - exC1.get_account_info.margin_used) ∧
    (exC1w.last_price = some 100 ∧ (100 : ℚ) ≠ 0 ∧
     exC1w.get_account_info.equity
        = exC1w.total_balance + specOpenUnrealized exC1w 100) :=
  ⟨⟨(C1_amended exC1).1, (C1_amended exC1).2.1⟩,
   rfl, by norm_num, (C1_amended exC1w).2.2 100 rfl (by norm_num)⟩

/-! ### C2: the fee debit drives available below zero -/

/-- Fresh executor with a 0.1% fee: balance 1000, `max_position_ratio` 1,
max leverage 10, minimum stop-loss distance 1%. -/
def exC2 : ExecState := ExecState.init 1000 (1 / 1000) 1 10 (1 / 100)

/-- The state after opening a long position whose margin consumes the full
available balance (amount 1000 at leverage 1, entry 100, stop 90). -/
def exC2' : ExecState :=
  (exC2.open_position "BTC" "long" 1000 1 90 200 100 1).1

/-- **C2 (violation).** From a reachable state with
`available = 1000 ≥ 0`, `open_position` passes validation (required margin
1000 equals available), then debits the fee of 1, leaving
`available = -1 < 0` — both by the spec's open-only margin sum and by
`get_account_info`. The validator was written to keep margin within
available, but the fee is deducted after validation. -/
theorem C2_fee_breaks_available :
    exC2.total_balance - specOpenMarginUsed exC2 = 1000 ∧
    (exC2.open_position "BTC" "long" 1000 1 90 200 100 1).2
      = .success 0 100 1 ∧
    exC2'.total_balance - specOpenMarginUsed exC2' = -1 ∧
    exC2'.get_account_info.available = -1 := by
  refine ⟨?_, ?_, ?_, ?_⟩ <;>
    norm_num [exC2, exC2', ExecState.init, ExecState.open_position,
      ExecState.get_account_info, ExecState.validate_position,
      specOpenMarginUsed, Position.margin_used, Direction.ofString,
      Direction.long_ne_short, Direction.short_ne_long,
      PositionStatus.opn_ne_closed, PositionStatus.closed_ne_opn]

/-! ### C8: close_position arithmetic -/

/-- `sign(direction)` of the claim: +1 for long, −1 for short. -/
def Direction.sign : Direction → ℚ
  | .long => 1
  | .short => -1

theorem findPos_map_id_preserving (l : List Position) (i : ℕ)
    (f : Position → Position) (hf : ∀ q, (f q).id = q.id) :
    (l.map f).find? (·.id = i) = (l.find? (·.id = i)).map f := by
  induction l with
  | nil => rfl
  | cons x xs ih =>
    by_cases hx : x.id = i
    · simp [List.find?_cons, hf, hx]
    · simp [List.find?_cons, hf, hx, ih]

/-- **C8.** For every open position and every ratio in `(0, 1]`, a
successful `close_position(id, ratio, p)` changes `total_balance` by
exactly `sign(direction)·(p − entry_price)·(amount·ratio)/entry_price`
minus `fee_rate·(amount·ratio)`; if `ratio ≥ 0.9999` the position's status
becomes closed with the terminal fields set, otherwise its amount becomes
`amount·(1 − ratio)` and its status stays open. -/
theorem C8_close_position (s : ExecState) (pos : Position)
    (ratio current_price : ℚ) (now : ℕ)
    (hfind : s.findPos pos.id = some pos) (hopen : pos.status = .opn)
    (h0 : 0 < ratio) (h1 : ratio ≤ 1) :
    (s.close_position pos.id ratio current_price now).2.isSuccess = true ∧
    (s.close_position pos.id ratio current_price now).1.total_balance
        = s.total_balance
          + pos.direction.sign * (current_price - pos.entry_price)
              * (pos.amount * ratio) / pos.entry_price
          - s.fee_rate * (pos.amount * ratio) ∧
    (ratio ≥ 9999 / 10000 →
      (((s.close_position pos.id ratio current_price now).1.findPos
            pos.id).map (·.status) = some .closed ∧
        ((s.close_position pos.id ratio current_price now).1.findPos
            pos.id).map (·.close_time) = some (some now) ∧
        ((s.close_position pos.id ratio current_price now).1.findPos
            pos.id).map (·.close_price) = some (some current_price) ∧
        ((s.close_position pos.id ratio current_price now).1.findPos
            pos.id).map (·.realized_pnl)
          = some (pos.direction.sign * (current_price - pos.entry_price)
                * (pos.amount * ratio) / pos.entry_price
              - s.fee_rate * (pos.amount * ratio)))) ∧
    (ratio < 9999 / 10000 →
      (((s.close_position pos.id ratio current_price now).1.findPos
            pos.id).map (·.status) = some .opn ∧
        ((s.close_position pos.id ratio current_price now).1.findPos
            pos.id).map (·.amount)
          = some (pos.amount * (1 - ratio)))) := by
  have hratio : ¬(ratio ≤ 0 ∨ ratio > 1) := by
    push_neg
    exact ⟨h0, h1⟩
  have hnotclosed : ¬(pos.status = PositionStatus.closed) := by
    rw [hopen]
    exact PositionStatus.opn_ne_closed
  have hbal : ∀ pnl fee : ℚ,
      (if pos.direction = Direction.long then pnl else fee) =
        (if pos.direction = Direction.long then pnl else fee) := fun _ _ => rfl
  unfold ExecState.close_position
  rw [hfind]
  dsimp only
  rw [if_neg hratio, if_neg hnotclosed]
  have hfound : ∀ g : Position → Position, (∀ q, (g q).id = q.id) →
      ExecState.findPos
        { s with
            total_balance := s.total_balance
              + ((if pos.direction = Direction.long then
                    (current_price - pos.entry_price) * (pos.amount * ratio)
                      / pos.entry_price
                  else
                    (pos.entry_price - current_price) * (pos.amount * ratio)
                      / pos.entry_price)
                 - pos.amount * ratio * s.fee_rate)
            positions := s.positions.map g } pos.id
        = some (g pos) := by
    intro g hg
    unfold ExecState.findPos at hfind ⊢
    simp only []
    rw [findPos_map_id_preserving _ _ _ hg, hfind]
    rfl
  refine ⟨rfl, ?_, ?_, ?_⟩
  · show s.total_balance + _ = _
    cases hd : pos.direction <;>
      simp [Direction.sign, hd] <;> ring
  · intro hr
    rw [hfound _ (by
      intro q
      by_cases hq : q.id = pos.id
      · rw [if_pos hq]
        split <;> simp [hq]
      · rw [if_neg hq])]
    simp only [if_pos rfl, if_true, if_pos hr, Option.map_some']
    refine ⟨by trivial, by trivial, by trivial, ?_⟩
    simp only [Option.some_inj]
    cases hd : pos.direction
    · simp only [Direction.sign, hd, if_pos rfl, if_true, ite_true,
        eq_self_iff_true]
      ring
    · simp only [Direction.sign, hd, if_neg Direction.short_ne_long,
        if_false, ite_false]
      ring
  · intro hr
    have hr' : ¬(ratio ≥ 9999 / 10000) := not_le.mpr hr
    rw [hfound _ (by
      intro q
      by_cases hq : q.id = pos.id
      · rw [if_pos hq]
        split <;> simp [hq]
      · rw [if_neg hq])]
    simp only [if_pos rfl, if_true, if_neg hr', Option.map_some']
    exact ⟨by rw [hopen], by trivial⟩

/-- Open long position used by the C8 witness: amount 100 at leverage 2,
entry 100. -/
def posC8 : Position :=
  { id := 0
    symbol := "BTC"
    direction := .long
    entry_price := 100
    amount := 100
    leverage := 2
    stop_loss := 50
    take_profit := 200
    open_time := 1 }

/-- Ledger holding `posC8`, zero fees. -/
def exC8 : ExecState :=
  { initial_balance := 1000
    fee_rate := 0
    max_position_ratio := 1
    max_leverage := 10
    min_stop_loss_percent := 0
    total_balance := 1000
    positions := [posC8]
    plans := []
    last_price := none
    nextId := 1 }

/-- Witness for `C8_close_position`: a half close of `posC8` at price 110. -/
theorem C8_close_position_witness :
    (exC8.findPos posC8.id = some posC8 ∧ posC8.status = .opn ∧
      (0 : ℚ) < 1 / 2 ∧ (1 / 2 : ℚ) ≤ 1) ∧
    ((exC8.close_position posC8.id (1 / 2) 110 2).2.isSuccess = true ∧
     (exC8.close_position posC8.id (1 / 2) 110 2).1.total_balance
        = exC8.total_balance
          + posC8.direction.sign * (110 - posC8.entry_price)
              * (posC8.amount * (1 / 2)) / posC8.entry_price
          - exC8.fee_rate * (posC8.amount * (1 / 2)) ∧
     ((1 : ℚ) / 2 ≥ 9999 / 10000 →
       (((exC8.close_position posC8.id (1 / 2) 110 2).1.findPos
             posC8.id).map (·.status) = some .closed ∧
         ((exC8.close_position posC8.id (1 / 2) 110 2).1.findPos
             posC8.id).map (·.close_time) = some (some 2) ∧
         ((exC8.close_position posC8.id (1 / 2) 110 2).1.findPos
             posC8.id).map (·.close_price) = some (some 110) ∧
         ((exC8.close_position posC8.id (1 / 2) 110 2).1.findPos
             posC8.id).map (·.realized_pnl)
           = some (posC8.direction.sign * (110 - posC8.entry_price)
                 * (posC8.amount * (1 / 2)) / posC8.entry_price
               - exC8.fee_rate * (posC8.amount * (1 / 2))))) ∧
     ((1 : ℚ) / 2 < 9999 / 10000 →
       (((exC8.close_position posC8.id (1 / 2) 110 2).1.findPos
             posC8.id).map (·.status) = some .opn ∧
         ((exC8.close_position posC8.id (1 / 2) 110 2).1.findPos
             posC8.id).map (·.amount)
           = some (posC8.amount * (1 - 1 / 2))))) :=
  ⟨⟨rfl, rfl, by norm_num, by norm_num⟩,
   C8_close_position exC8 posC8 (1 / 2) 110 2 rfl rfl
     (by norm_num) (by norm_num)⟩

/-! ### Structural lemmas about the engine operations

These record which parts of the state each operation can touch; they are
shared by the price-update claims. -/

theorem open_position_plans (s : ExecState) (sym dir : String) (a : ℚ)
    (lev : ℤ) (sl tp cp : ℚ) (t : ℕ) :
    (s.open_position sym dir a lev sl tp cp t).1.plans = s.plans := by
  unfold ExecState.open_position
  cases Direction.ofString dir
  · rfl
  · dsimp only
    split <;> rfl

theorem open_position_nextId_le (s : ExecState) (sym dir : String) (a : ℚ)
    (lev : ℤ) (sl tp cp : ℚ) (t : ℕ) :
    s.nextId ≤ (s.open_position sym dir a lev sl tp cp t).1.nextId := by
  unfold ExecState.open_position
  cases Direction.ofString dir
  · exact le_refl _
  · dsimp only
    split
    · exact Nat.le_succ _
    · exact le_refl _

theorem open_position_positions_superset (s : ExecState) (sym dir : String)
    (a : ℚ) (lev : ℤ) (sl tp cp : ℚ) (t : ℕ) (q : Position)
    (hq : q ∈ s.positions) :
    q ∈ (s.open_position sym dir a lev sl tp cp t).1.positions := by
  unfold ExecState.open_position
  cases Direction.ofString dir
  · exact hq
  · dsimp only
    split
    · exact List.mem_append_left _ hq
    · exact hq

theorem open_position_positions_char (s : ExecState) (sym dir : String)
    (a : ℚ) (lev : ℤ) (sl tp cp : ℚ) (t : ℕ) (q : Position)
    (hq : q ∈ (s.open_position sym dir a lev sl tp cp t).1.positions) :
    q ∈ s.positions ∨ q.id = s.nextId := by
  revert hq
  unfold ExecState.open_position
  cases Direction.ofString dir
  · exact fun hq => Or.inl hq
  · dsimp only
    split
    · intro hq
      rcases List.mem_append.mp hq with h | h
      · exact Or.inl h
      · right
        rw [List.mem_singleton.mp h]
    · exact fun hq => Or.inl hq

theorem close_position_plans (s : ExecState) (pid : ℕ) (r c : ℚ) (t : ℕ) :
    (s.close_position pid r c t).1.plans = s.plans := by
  unfold ExecState.close_position
  cases s.findPos pid
  · rfl
  · dsimp only
    split
    · rfl
    · split <;> rfl

theorem close_position_nextId (s : ExecState) (pid : ℕ) (r c : ℚ) (t : ℕ) :
    (s.close_position pid r c t).1.nextId = s.nextId := by
  unfold ExecState.close_position
  cases s.findPos pid
  · rfl
  · dsimp only
    split
    · rfl
    · split <;> rfl

theorem findPos_some_id (s : ExecState) (pid : ℕ) (p : Position)
    (h : s.findPos pid = some p) : p.id = pid := by
  have h' : s.positions.find? (fun x => decide (x.id = pid)) = some p := h
  have h2 := List.find?_some h'
  exact of_decide_eq_true h2

theorem findPlan_some_id (s : ExecState) (pid : ℕ) (pl : TradingPlan)
    (h : s.findPlan pid = some pl) : pl.id = pid := by
  have h' : s.plans.find? (fun x => decide (x.id = pid)) = some pl := h
  have h2 := List.find?_some h'
  exact of_decide_eq_true h2

theorem close_position_ids (s : ExecState) (pid : ℕ) (r c : ℚ) (t : ℕ) :
    ((s.close_position pid r c t).1.positions).map (·.id)
      = s.positions.map (·.id) := by
  unfold ExecState.close_position
  cases hf : s.findPos pid
  · rfl
  · rename_i found
    have hfid : found.id = pid := findPos_some_id s pid found hf
    dsimp only
    split
    · rfl
    · split
      · rfl
      · dsimp only
        rw [List.map_map]
        refine List.map_congr_left fun q _hq => ?_
        by_cases hq : q.id = pid
        · simp only [Function.comp_apply, if_pos hq]
          split <;> exact hfid.trans hq.symm
        · simp only [Function.comp_apply, if_neg hq]

theorem close_position_preserves_other (s : ExecState) (pid : ℕ) (r c : ℚ)
    (t : ℕ) (q : Position) (hq : q ∈ s.positions) (hid : q.id ≠ pid) :
    q ∈ (s.close_position pid r c t).1.positions := by
  unfold ExecState.close_position
  cases hf : s.findPos pid
  · exact hq
  · dsimp only
    split
    · exact hq
    · split
      · exact hq
      · dsimp only
        exact List.mem_map.mpr ⟨q, hq, if_neg hid⟩

theorem markPlanTriggered_positions (s : ExecState) (pid : ℕ) :
    (s.markPlanTriggered pid).positions = s.positions := rfl

theorem markPlanTriggered_nextId (s : ExecState) (pid : ℕ) :
    (s.markPlanTriggered pid).nextId = s.nextId := rfl

/-! ### The plan-trigger pass as a map over the plan list -/

/-- Mark the plans whose id lies in `ids` as triggered (the cumulative
effect of the fired iterations of the plan loop). -/
def markIf (ids : List ℕ) (q : TradingPlan) : TradingPlan :=
  if q.id ∈ ids then { q with status := .triggered } else q

/-- Ids of the snapshot plans that fire on the interval `(last, curr]`. -/
def firedIds (current_price last_price : ℚ) (l : List TradingPlan) :
    List ℕ :=
  (l.filter (fun pl => pl.check_trigger current_price last_price)).map (·.id)

theorem markIf_nil (q : TradingPlan) : markIf [] q = q := by
  simp [markIf]

theorem markIf_id_eq (ids : List ℕ) (q : TradingPlan) :
    (markIf ids q).id = q.id := by
  unfold markIf
  split <;> rfl

theorem markIf_cons (a : ℕ) (ids : List ℕ) (q : TradingPlan) :
    markIf (a :: ids) q
      = markIf ids (if q.id = a then { q with status := .triggered }
                    else q) := by
  unfold markIf
  by_cases hq : q.id = a
  · rw [if_pos hq, if_pos (List.mem_cons.mpr (Or.inl hq))]
    split <;> rfl
  · rw [if_neg hq]
    by_cases hm : q.id ∈ ids
    · rw [if_pos (List.mem_cons.mpr (Or.inr hm)), if_pos hm]
    · rw [if_neg (by simp [hq, hm]), if_neg hm]

theorem firedIds_cons (cp lp : ℚ) (x : TradingPlan) (xs : List TradingPlan) :
    firedIds cp lp (x :: xs)
      = if x.check_trigger cp lp then x.id :: firedIds cp lp xs
        else firedIds cp lp xs := by
  simp only [firedIds, List.filter_cons]
  split <;> rfl

theorem ctpStep_not_fired (cp lp : ℚ) (t : ℕ)
    (acc : ExecState × List TriggeredEntry) (x : TradingPlan)
    (hx : ¬(x.check_trigger cp lp = true)) :
    ctpStep cp lp t acc x = acc := by
  unfold ctpStep
  rcases acc with ⟨st, tr⟩
  exact if_neg hx

theorem ctp_foldl_plans (cp lp : ℚ) (t : ℕ) (l : List TradingPlan) :
    ∀ (s0 : ExecState) (acc : List TriggeredEntry),
      (l.foldl (ctpStep cp lp t) (s0, acc)).1.plans
        = s0.plans.map (markIf (firedIds cp lp l)) := by
  induction l with
  | nil =>
    intro s0 acc
    have : s0.plans.map (markIf (firedIds cp lp [])) = s0.plans.map id := by
      refine List.map_congr_left fun q _ => ?_
      simp [firedIds, markIf_nil]
    simp [this]
  | cons x xs ih =>
    intro s0 acc
    rw [List.foldl_cons, firedIds_cons]
    by_cases hx : x.check_trigger cp lp = true
    · rw [if_pos hx]
      have hstep : ctpStep cp lp t (s0, acc) x
          = ((s0.open_position x.symbol x.direction.value x.amount
                x.leverage x.stop_loss x.take_profit cp t).1.markPlanTriggered
              x.id,
             acc ++ [⟨x.id, (s0.open_position x.symbol x.direction.value
                x.amount x.leverage x.stop_loss x.take_profit cp t).2⟩]) := by
        unfold ctpStep
        dsimp only
        rw [if_pos hx]
      rw [hstep, ih]
      show (ExecState.markPlanTriggered _ _).plans.map _ = _
      unfold ExecState.markPlanTriggered
      dsimp only
      rw [open_position_plans, List.map_map]
      refine List.map_congr_left fun q _ => ?_
      exact (markIf_cons x.id (firedIds cp lp xs) q).symm
    · rw [if_neg hx, ctpStep_not_fired cp lp t (s0, acc) x hx, ih]

theorem ctp_foldl_triggered_ids (cp lp : ℚ) (t : ℕ) (l : List TradingPlan) :
    ∀ (s0 : ExecState) (acc : List TriggeredEntry),
      ((l.foldl (ctpStep cp lp t) (s0, acc)).2).map (·.plan_id)
        = acc.map (·.plan_id) ++ firedIds cp lp l := by
  induction l with
  | nil =>
    intro s0 acc
    simp [firedIds]
  | cons x xs ih =>
    intro s0 acc
    rw [List.foldl_cons, firedIds_cons]
    by_cases hx : x.check_trigger cp lp = true
    · rw [if_pos hx]
      have hstep : ctpStep cp lp t (s0, acc) x
          = ((s0.open_position x.symbol x.direction.value x.amount
                x.leverage x.stop_loss x.take_profit cp t).1.markPlanTriggered
              x.id,
             acc ++ [⟨x.id, (s0.open_position x.symbol x.direction.value
                x.amount x.leverage x.stop_loss x.take_profit cp t).2⟩]) := by
        unfold ctpStep
        dsimp only
        rw [if_pos hx]
      rw [hstep, ih]
      simp
    · rw [if_neg hx, ctpStep_not_fired cp lp t (s0, acc) x hx, ih]

theorem ctp_foldl_positions_mem (cp lp : ℚ) (t : ℕ) (l : List TradingPlan) :
    ∀ (s0 : ExecState) (acc : List TriggeredEntry) (q : Position),
      q ∈ s0.positions →
      q ∈ (l.foldl (ctpStep cp lp t) (s0, acc)).1.positions := by
  induction l with
  | nil => exact fun s0 acc q hq => hq
  | cons x xs ih =>
    intro s0 acc q hq
    rw [List.foldl_cons]
    by_cases hx : x.check_trigger cp lp = true
    · have hstep : ctpStep cp lp t (s0, acc) x
          = ((s0.open_position x.symbol x.direction.value x.amount
                x.leverage x.stop_loss x.take_profit cp t).1.markPlanTriggered
              x.id,
             acc ++ [⟨x.id, (s0.open_position x.symbol x.direction.value
                x.amount x.leverage x.stop_loss x.take_profit cp t).2⟩]) := by
        unfold ctpStep
        dsimp only
        rw [if_pos hx]
      rw [hstep]
      exact ih ((s0.open_position x.symbol x.direction.value x.amount
          x.leverage x.stop_loss x.take_profit cp t).1.markPlanTriggered
          x.id) _ q
        (open_position_positions_superset s0 x.symbol x.direction.value
          x.amount x.leverage x.stop_loss x.take_profit cp t q hq)
    · rw [ctpStep_not_fired cp lp t (s0, acc) x hx]
      exact ih _ _ q hq

theorem ctp_foldl_nextId_le (cp lp : ℚ) (t : ℕ) (l : List TradingPlan) :
    ∀ (s0 : ExecState) (acc : List TriggeredEntry),
      s0.nextId ≤ (l.foldl (ctpStep cp lp t) (s0, acc)).1.nextId := by
  induction l with
  | nil => exact fun s0 acc => le_refl _
  | cons x xs ih =>
    intro s0 acc
    rw [List.foldl_cons]
    by_cases hx : x.check_trigger cp lp = true
    · have hstep : ctpStep cp lp t (s0, acc) x
          = ((s0.open_position x.symbol x.direction.value x.amount
                x.leverage x.stop_loss x.take_profit cp t).1.markPlanTriggered
              x.id,
             acc ++ [⟨x.id, (s0.open_position x.symbol x.direction.value
                x.amount x.leverage x.stop_loss x.take_profit cp t).2⟩]) := by
        unfold ctpStep
        dsimp only
        rw [if_pos hx]
      rw [hstep]
      exact le_trans
        (open_position_nextId_le s0 x.symbol x.direction.value x.amount
          x.leverage x.stop_loss x.take_profit cp t)
        (ih ((s0.open_position x.symbol x.direction.value x.amount
          x.leverage x.stop_loss x.take_profit cp t).1.markPlanTriggered
          x.id) _)
    · rw [ctpStep_not_fired cp lp t (s0, acc) x hx]
      exact ih _ _

theorem ctp_foldl_positions_char (cp lp : ℚ) (t : ℕ) (l : List TradingPlan) :
    ∀ (s0 : ExecState) (acc : List TriggeredEntry) (q : Position),
      q ∈ (l.foldl (ctpStep cp lp t) (s0, acc)).1.positions →
      q ∈ s0.positions ∨ s0.nextId ≤ q.id := by
  induction l with
  | nil => exact fun s0 acc q hq => Or.inl hq
  | cons x xs ih =>
    intro s0 acc q hq
    rw [List.foldl_cons] at hq
    by_cases hx : x.check_trigger cp lp = true
    · have hstep : ctpStep cp lp t (s0, acc) x
          = ((s0.open_position x.symbol x.direction.value x.amount
                x.leverage x.stop_loss x.take_profit cp t).1.markPlanTriggered
              x.id,
             acc ++ [⟨x.id, (s0.open_position x.symbol x.direction.value
                x.amount x.leverage x.stop_loss x.take_profit cp t).2⟩]) := by
        unfold ctpStep
        dsimp only
        rw [if_pos hx]
      rw [hstep] at hq
      rcases ih _ _ q hq with h | h
      · rcases open_position_positions_char _ _ _ _ _ _ _ _ _ q h with
          h' | h'
        · exact Or.inl h'
        · exact Or.inr (le_of_eq h'.symm)
      · exact Or.inr (le_trans
          (open_position_nextId_le s0 x.symbol x.direction.value x.amount
            x.leverage x.stop_loss x.take_profit cp t) h)
    · rw [ctpStep_not_fired cp lp t (s0, acc) x hx] at hq
      exact ih _ _ q hq

/-! ### The stop-loss/take-profit pass -/

theorem sltpStep_not_open (cp : ℚ) (t : ℕ)
    (acc : ExecState × List AutoClosedEntry) (x : Position)
    (hx : ¬(x.status = .opn)) : sltpStep cp t acc x = acc := by
  unfold sltpStep
  rcases acc with ⟨st, closed⟩
  dsimp only
  rw [if_neg hx]

theorem sltpStep_no_trigger (cp : ℚ) (t : ℕ)
    (acc : ExecState × List AutoClosedEntry) (x : Position)
    (hx : x.check_stop_loss_take_profit cp = none) :
    sltpStep cp t acc x = acc := by
  unfold sltpStep
  rcases acc with ⟨st, closed⟩
  dsimp only
  by_cases ho : x.status = .opn
  · rw [if_pos ho, hx]
  · rw [if_neg ho]

theorem sltpStep_fired (cp : ℚ) (t : ℕ) (st : ExecState)
    (closed : List AutoClosedEntry) (x : Position) (trig : SLTPTrigger)
    (ho : x.status = .opn)
    (hx : x.check_stop_loss_take_profit cp = some trig) :
    sltpStep cp t (st, closed) x
      = ((st.close_position x.id 1 cp t).1,
         closed ++ [⟨x.id, trig, (st.close_position x.id 1 cp t).2⟩]) := by
  unfold sltpStep
  dsimp only
  rw [if_pos ho, hx]

theorem sltp_foldl_plans (cp : ℚ) (t : ℕ) (l : List Position) :
    ∀ (s0 : ExecState) (acc : List AutoClosedEntry),
      (l.foldl (sltpStep cp t) (s0, acc)).1.plans = s0.plans := by
  induction l with
  | nil => exact fun s0 acc => rfl
  | cons x xs ih =>
    intro s0 acc
    rw [List.foldl_cons]
    by_cases ho : x.status = .opn
    · cases htr : x.check_stop_loss_take_profit cp with
      | none => rw [sltpStep_no_trigger cp t (s0, acc) x htr, ih]
      | some trig =>
        rw [sltpStep_fired cp t s0 acc x trig ho htr, ih,
          close_position_plans]
    · rw [sltpStep_not_open cp t (s0, acc) x ho, ih]

theorem sltp_foldl_nextId (cp : ℚ) (t : ℕ) (l : List Position) :
    ∀ (s0 : ExecState) (acc : List AutoClosedEntry),
      (l.foldl (sltpStep cp t) (s0, acc)).1.nextId = s0.nextId := by
  induction l with
  | nil => exact fun s0 acc => rfl
  | cons x xs ih =>
    intro s0 acc
    rw [List.foldl_cons]
    by_cases ho : x.status = .opn
    · cases htr : x.check_stop_loss_take_profit cp with
      | none => rw [sltpStep_no_trigger cp t (s0, acc) x htr, ih]
      | some trig =>
        rw [sltpStep_fired cp t s0 acc x trig ho htr, ih,
          close_position_nextId]
    · rw [sltpStep_not_open cp t (s0, acc) x ho, ih]

theorem sltp_foldl_ids (cp : ℚ) (t : ℕ) (l : List Position) :
    ∀ (s0 : ExecState) (acc : List AutoClosedEntry),
      ((l.foldl (sltpStep cp t) (s0, acc)).1.positions).map (·.id)
        = s0.positions.map (·.id) := by
  induction l with
  | nil => exact fun s0 acc => rfl
  | cons x xs ih =>
    intro s0 acc
    rw [List.foldl_cons]
    by_cases ho : x.status = .opn
    · cases htr : x.check_stop_loss_take_profit cp with
      | none => rw [sltpStep_no_trigger cp t (s0, acc) x htr, ih]
      | some trig =>
        rw [sltpStep_fired cp t s0 acc x trig ho htr, ih,
          close_position_ids]
    · rw [sltpStep_not_open cp t (s0, acc) x ho, ih]

theorem sltp_foldl_preserves (cp : ℚ) (t : ℕ) (l : List Position)
    (pos : Position)
    (hl : ∀ x ∈ l, x.status = .opn → x.id ≠ pos.id) :
    ∀ (s0 : ExecState) (acc : List AutoClosedEntry),
      pos ∈ s0.positions →
      pos ∈ (l.foldl (sltpStep cp t) (s0, acc)).1.positions := by
  induction l with
  | nil => exact fun s0 acc h => h
  | cons x xs ih =>
    intro s0 acc hmem
    rw [List.foldl_cons]
    have hl' : ∀ x ∈ xs, x.status = .opn → x.id ≠ pos.id :=
      fun y hy => hl y (List.mem_cons_of_mem x hy)
    by_cases ho : x.status = .opn
    · cases htr : x.check_stop_loss_take_profit cp with
      | none =>
        rw [sltpStep_no_trigger cp t (s0, acc) x htr]
        exact ih hl' s0 acc hmem
      | some trig =>
        rw [sltpStep_fired cp t s0 acc x trig ho htr]
        refine ih hl' _ _ ?_
        exact close_position_preserves_other s0 x.id 1 cp t pos hmem
          fun h => hl x (List.mem_cons_self x xs) ho h.symm
    · rw [sltpStep_not_open cp t (s0, acc) x ho]
      exact ih hl' s0 acc hmem

theorem sltp_foldl_no_trigger (cp : ℚ) (t : ℕ) (l : List Position)
    (hl : ∀ x ∈ l, x.status = .opn →
      x.check_stop_loss_take_profit cp = none) :
    ∀ (s0 : ExecState) (acc : List AutoClosedEntry),
      l.foldl (sltpStep cp t) (s0, acc) = (s0, acc) := by
  induction l with
  | nil => exact fun s0 acc => rfl
  | cons x xs ih =>
    intro s0 acc
    rw [List.foldl_cons]
    have hl' : ∀ x ∈ xs, x.status = .opn →
        x.check_stop_loss_take_profit cp = none :=
      fun y hy => hl y (List.mem_cons_of_mem x hy)
    by_cases ho : x.status = .opn
    · rw [sltpStep_no_trigger cp t (s0, acc) x
        (hl x (List.mem_cons_self x xs) ho)]
      exact ih hl' s0 acc
    · rw [sltpStep_not_open cp t (s0, acc) x ho]
      exact ih hl' s0 acc

/-! ### C3: the first price update -/

/-- Reachable state whose price cursor is still unset but which already
holds an open long position with stop-loss 90 (positions can be opened
before any price update, and a restored ledger can also start this way). -/
def exC3 : ExecState :=
  ((ExecState.init 1000 0 1 10 0).open_position
      "BTC" "long" 100 2 90 200 100 1).1

/-- **C3 (counterexample).** On `exC3` (price cursor unset, one open long
position with stop-loss 90) the FIRST `update_price(80)` does not merely
seed the cursor: the stop-loss pass still runs, auto-closes the position
and changes `total_balance`, contradicting the claim that the first call
leaves every position and the balance unchanged and reports no auto-closed
positions. -/
theorem C3_counterexample :
    exC3.last_price = none ∧
    (exC3.update_price 80 2).2.auto_closed_positions ≠ [] ∧
    (exC3.update_price 80 2).1.total_balance ≠ exC3.total_balance ∧
    ((exC3.update_price 80 2).1.findPos 0).map (·.status)
      = some .closed := by
  refine ⟨?_, ?_, ?_, ?_⟩ <;>
    norm_num [exC3, ExecState.init, ExecState.open_position,
      ExecState.close_position, ExecState.update_price,
      ExecState.check_and_trigger_plans, ExecState.check_sltp, sltpStep,
      ctpStep, ExecState.validate_position, ExecState.get_account_info,
      ExecState.findPos, Position.check_stop_loss_take_profit,
      Position.margin_used, Direction.ofString, List.find?,
      Direction.long_ne_short, Direction.short_ne_long,
      PositionStatus.opn_ne_closed, PositionStatus.closed_ne_opn]

/-- **C3 (amended).** For every state in which `last_price` is unset, the
first `update_price(p)` seeds the PriceCursor to `p`, triggers no plans and
leaves every plan unchanged; the stop-loss/take-profit pass however still
runs at `p`, so `total_balance`, the positions and the auto-closed list are
unchanged/empty only when no open position's stop-loss/take-profit
condition holds at `p`. -/
theorem C3_amended (s : ExecState) (p : ℚ) (t : ℕ)
    (h : s.last_price = none) :
    (s.update_price p t).2.triggered_plans = [] ∧
    (s.update_price p t).1.plans = s.plans ∧
    (s.update_price p t).1.last_price = some p ∧
    ((∀ pos ∈ s.positions, pos.status = .opn →
        pos.check_stop_loss_take_profit p = none) →
      ((s.update_price p t).1.positions = s.positions ∧
       (s.update_price p t).1.total_balance = s.total_balance ∧
       (s.update_price p t).2.auto_closed_positions = [])) := by
  have h1 : s.check_and_trigger_plans p t
      = ({ s with last_price := some p }, []) := by
    unfold ExecState.check_and_trigger_plans
    rw [h]
  unfold ExecState.update_price
  rw [h1]
  dsimp only
  refine ⟨rfl, ?_, rfl, ?_⟩
  · show (ExecState.check_sltp _ p t).1.plans = s.plans
    unfold ExecState.check_sltp
    exact sltp_foldl_plans p t _ _ _
  · intro hno
    have h2 : ExecState.check_sltp { s with last_price := some p } p t
        = ({ s with last_price := some p }, []) := by
      unfold ExecState.check_sltp
      exact sltp_foldl_no_trigger p t _ (fun x hx => hno x hx) _ _
    rw [h2]
    exact ⟨rfl, rfl, rfl⟩

/-- Witness for `C3_amended`: the fresh executor, first price 100. -/
theorem C3_amended_witness :
    (ExecState.init 1000 0 1 10 0).last_price = none ∧
    (((ExecState.init 1000 0 1 10 0).update_price 100 1).2.triggered_plans
        = [] ∧
     ((ExecState.init 1000 0 1 10 0).update_price 100 1).1.plans
        = (ExecState.init 1000 0 1 10 0).plans ∧
     ((ExecState.init 1000 0 1 10 0).update_price 100 1).1.last_price
        = some 100 ∧
     ((∀ pos ∈ (ExecState.init 1000 0 1 10 0).positions,
         pos.status = .opn →
         pos.check_stop_loss_take_profit 100 = none) →
       (((ExecState.init 1000 0 1 10 0).update_price 100 1).1.positions
          = (ExecState.init 1000 0 1 10 0).positions ∧
        ((ExecState.init 1000 0 1 10 0).update_price 100 1).1.total_balance
          = (ExecState.init 1000 0 1 10 0).total_balance ∧
        ((ExecState.init 1000 0 1 10 0).update_price
            100 1).2.auto_closed_positions = []))) :=
  ⟨rfl, C3_amended (ExecState.init 1000 0 1 10 0) 100 1 rfl⟩

/-! ### Lookup on id-keyed lists with distinct ids -/

theorem find?_key_of_nodup {α : Type} (f : α → ℕ) (l : List α)
    (hnd : (l.map f).Nodup) (a : α) (hmem : a ∈ l) :
    l.find? (fun x => f x = f a) = some a := by
  induction l with
  | nil => cases hmem
  | cons x xs ih =>
    rw [List.map_cons, List.nodup_cons] at hnd
    rcases List.mem_cons.mp hmem with rfl | hmem'
    · rw [List.find?_cons_of_pos _ (by simp)]
    · have hx : ¬(f x = f a) := by
        intro hx
        exact hnd.1 (hx ▸ List.mem_map_of_mem f hmem')
      rw [List.find?_cons_of_neg _ (by simp [hx])]
      exact ih hnd.2 hmem'

theorem findPlan_of_nodup (s : ExecState) (pl : TradingPlan)
    (hnd : (s.plans.map (·.id)).Nodup) (hmem : pl ∈ s.plans) :
    s.findPlan pl.id = some pl :=
  find?_key_of_nodup (fun q : TradingPlan => q.id) s.plans hnd pl hmem

theorem findPos_of_nodup (s : ExecState) (pos : Position)
    (hnd : (s.positions.map (·.id)).Nodup) (hmem : pos ∈ s.positions) :
    s.findPos pos.id = some pos :=
  find?_key_of_nodup (fun q : Position => q.id) s.positions hnd pos hmem

theorem check_trigger_pending (pl : TradingPlan) (cp lp : ℚ)
    (h : pl.check_trigger cp lp = true) : pl.status = .pending := by
  by_contra hst
  unfold TradingPlan.check_trigger at h
  rw [if_pos hst] at h
  exact Bool.noConfusion h

theorem mem_firedIds (cp lp : ℚ) (l : List TradingPlan) (pid : ℕ) :
    pid ∈ firedIds cp lp l ↔
      ∃ q ∈ l, q.check_trigger cp lp = true ∧ q.id = pid := by
  simp only [firedIds, List.mem_map, List.mem_filter]
  constructor
  · rintro ⟨q, ⟨hq, hfire⟩, hid⟩
    exact ⟨q, hq, hfire, hid⟩
  · rintro ⟨q, hq, hfire, hid⟩
    exact ⟨q, ⟨hq, hfire⟩, hid⟩

theorem modify_position_plans (s : ExecState) (pid : ℕ)
    (sl tp : Option ℚ) : (s.modify_position pid sl tp).1.plans = s.plans := by
  unfold ExecState.modify_position
  cases s.findPos pid
  · rfl
  · rfl

theorem create_plan_plans_superset (s : ExecState) (sym : String) (trg : ℚ)
    (dir : String) (a : ℚ) (lev : ℤ) (sl tp : ℚ) (t : ℕ)
    (pl : TradingPlan) (hmem : pl ∈ s.plans) :
    pl ∈ (s.create_plan sym trg dir a lev sl tp t).1.plans := by
  unfold ExecState.create_plan
  cases Direction.ofString dir
  · exact hmem
  · dsimp only
    split
    · exact List.mem_append_left _ hmem
    · exact hmem

/-- The plan list after a full `update_price`: the plan pass marks the
fired snapshot ids, the SL/TP pass and the final cursor write leave plans
alone. -/
theorem update_price_plans (s : ExecState) (p : ℚ) (t : ℕ) :
    (s.update_price p t).1.plans
      = match s.last_price with
        | none => s.plans
        | some last => s.plans.map (markIf (firedIds p last s.plans)) := by
  unfold ExecState.update_price
  cases h : s.last_price with
  | none =>
    have h1 : s.check_and_trigger_plans p t
        = ({ s with last_price := some p }, []) := by
      unfold ExecState.check_and_trigger_plans
      rw [h]
    rw [h1]
    dsimp only
    show (ExecState.check_sltp _ p t).1.plans = s.plans
    unfold ExecState.check_sltp
    exact sltp_foldl_plans p t _ _ _
  | some last =>
    have h1 : s.check_and_trigger_plans p t
        = s.plans.foldl (ctpStep p last t) (s, []) := by
      unfold ExecState.check_and_trigger_plans
      rw [h]
    rw [h1]
    dsimp only
    show (ExecState.check_sltp _ p t).1.plans = _
    unfold ExecState.check_sltp
    rw [sltp_foldl_plans p t _ _ _]
    exact ctp_foldl_plans p last t s.plans s []

/-! ### C6: terminal plan states -/

/-- Reachable state with a triggered plan: create a long plan with trigger
105, seed the cursor at 100, then cross to 106 so the plan fires. -/
def exC6 : ExecState :=
  ((((ExecState.init 1000 0 1 10 0).create_plan
        "BTC" 105 "long" 100 2 90 200 1).1.update_price
      100 2).1.update_price 106 3).1

/-- **C6 (counterexample).** On `exC6`, plan 0 has status triggered, yet
`cancel_plan` succeeds and rewrites its status to cancelled: triggered is
not terminal under `cancel_plan` (the command has no status guard). -/
theorem C6_counterexample :
    (exC6.findPlan 0).map (·.status) = some .triggered ∧
    (exC6.cancel_plan 0).2 = .success ∧
    ((exC6.cancel_plan 0).1.findPlan 0).map (·.status)
      = some .cancelled := by
  refine ⟨?_, ?_, ?_⟩ <;>
    norm_num [exC6, ExecState.init, ExecState.create_plan,
      ExecState.update_price, ExecState.check_and_trigger_plans,
      ExecState.check_sltp, ctpStep, sltpStep, ExecState.open_position,
      ExecState.close_position, ExecState.markPlanTriggered,
      ExecState.cancel_plan, TradingPlan.check_trigger,
      Position.check_stop_loss_take_profit, ExecState.validate_position,
      ExecState.get_account_info, ExecState.findPlan, ExecState.findPos,
      Position.margin_used, Direction.ofString, Direction.value,
      List.find?, Direction.long_ne_short, Direction.short_ne_long,
      PositionStatus.opn_ne_closed, PositionStatus.closed_ne_opn,
      PlanStatus.triggered_ne_pending, PlanStatus.cancelled_ne_pending,
      PlanStatus.pending_ne_triggered, PlanStatus.pending_ne_cancelled]

/-- **C6 (amended).** For every plan whose status is triggered or
cancelled (i.e. not pending): `modify_plan` fails with the invalid-state
error and leaves the whole ledger untouched; `update_price` and the other
commands never change any of its fields; and `cancel_plan` — the one
exception — changes nothing except that it sets the plan's status to
cancelled, so a cancelled plan is fully terminal while a triggered plan
can still be moved to cancelled by `cancel_plan`. -/
theorem C6_amended (s : ExecState) (pl : TradingPlan)
    (hnd : (s.plans.map (·.id)).Nodup) (hmem : pl ∈ s.plans)
    (hst : pl.status ≠ .pending) :
    (∀ kw, s.modify_plan pl.id kw = (s, .invalidState)) ∧
    (∀ p t, pl ∈ (s.update_price p t).1.plans) ∧
    (∀ sym dir a lev sl tp cp t,
      pl ∈ (s.open_position sym dir a lev sl tp cp t).1.plans) ∧
    (∀ pid r c t, pl ∈ (s.close_position pid r c t).1.plans) ∧
    (∀ pid sl tp, pl ∈ (s.modify_position pid sl tp).1.plans) ∧
    (∀ sym trg dir a lev sl tp t,
      pl ∈ (s.create_plan sym trg dir a lev sl tp t).1.plans) ∧
    ((s.cancel_plan pl.id).1.plans
        = s.plans.map fun q =>
            if q.id = pl.id then { q with status := .cancelled } else q) ∧
    (pl.status = .cancelled → (s.cancel_plan pl.id).1.plans = s.plans) := by
  have hfind : s.findPlan pl.id = some pl := findPlan_of_nodup s pl hnd hmem
  have himg : ∀ cp lp : ℚ, markIf (firedIds cp lp s.plans) pl = pl := by
    intro cp lp
    unfold markIf
    rw [if_neg]
    intro hmemf
    rcases (mem_firedIds cp lp s.plans pl.id).mp hmemf with
      ⟨q, hq, hfire, hid⟩
    have hqpl : q = pl := List.inj_on_of_nodup_map hnd hq hmem hid
    exact hst (hqpl ▸ check_trigger_pending q cp lp hfire)
  refine ⟨?_, ?_, ?_, ?_, ?_, ?_, ?_, ?_⟩
  · intro kw
    unfold ExecState.modify_plan
    rw [hfind]
    dsimp only
    rw [if_pos hst]
  · intro p t
    rw [update_price_plans]
    cases s.last_price with
    | none => exact hmem
    | some last =>
      have hm := List.mem_map_of_mem (markIf (firedIds p last s.plans)) hmem
      rwa [himg p last] at hm
  · intro sym dir a lev sl tp cp t
    rw [open_position_plans]
    exact hmem
  · intro pid r c t
    rw [close_position_plans]
    exact hmem
  · intro pid sl tp
    rw [modify_position_plans]
    exact hmem
  · intro sym trg dir a lev sl tp t
    exact create_plan_plans_superset s sym trg dir a lev sl tp t pl hmem
  · unfold ExecState.cancel_plan
    rw [hfind]
  · intro hc
    unfold ExecState.cancel_plan
    rw [hfind]
    dsimp only
    have hid : ∀ q ∈ s.plans,
        (if q.id = pl.id then { q with status := PlanStatus.cancelled }
         else q) = id q := by
      intro q hq
      by_cases hqid : q.id = pl.id
      · have hqpl : q = pl := List.inj_on_of_nodup_map hnd hq hmem hqid
        subst hqpl
        rw [if_pos hqid, ← hc]
        rfl
      · rw [if_neg hqid]
        rfl
    rw [List.map_congr_left hid, List.map_id]

/-- A triggered plan, for the C6 witness. -/
def plC6 : TradingPlan :=
  { id := 0
    symbol := "BTC"
    trigger_price := 105
    direction := .long
    amount := 100
    leverage := 2
    stop_loss := 90
    take_profit := 200
    create_time := 1
    status := .triggered }

/-- Ledger holding only `plC6`. -/
def exC6w : ExecState :=
  { initial_balance := 1000
    fee_rate := 0
    max_position_ratio := 1
    max_leverage := 10
    min_stop_loss_percent := 0
    total_balance := 1000
    positions := []
    plans := [plC6]
    last_price := some 100
    nextId := 1 }

/-- Witness for `C6_amended` at the concrete ledger `exC6w`. -/
theorem C6_amended_witness :
    ((exC6w.plans.map (·.id)).Nodup ∧ plC6 ∈ exC6w.plans ∧
      plC6.status ≠ .pending) ∧
    ((∀ kw, exC6w.modify_plan plC6.id kw = (exC6w, .invalidState)) ∧
     (∀ p t, plC6 ∈ (exC6w.update_price p t).1.plans) ∧
     (∀ sym dir a lev sl tp cp t,
       plC6 ∈ (exC6w.open_position sym dir a lev sl tp cp t).1.plans) ∧
     (∀ pid r c t, plC6 ∈ (exC6w.close_position pid r c t).1.plans) ∧
     (∀ pid sl tp, plC6 ∈ (exC6w.modify_position pid sl tp).1.plans) ∧
     (∀ sym trg dir a lev sl tp t,
       plC6 ∈ (exC6w.create_plan sym trg dir a lev sl tp t).1.plans) ∧
     ((exC6w.cancel_plan plC6.id).1.plans
         = exC6w.plans.map fun q =>
             if q.id = plC6.id then { q with status := .cancelled }
             else q) ∧
     (plC6.status = .cancelled →
       (exC6w.cancel_plan plC6.id).1.plans = exC6w.plans)) :=
  ⟨⟨by decide, by exact List.mem_singleton.mpr rfl, by decide⟩,
   C6_amended exC6w plC6 (by decide) (List.mem_singleton.mpr rfl)
     (by decide)⟩

/-! ### C7: closed positions -/

/-- **C7 (counterexample).** On the reachable ledger `exC1` whose position
0 is fully closed (stop-loss 50), `modify_position` still succeeds and
rewrites the closed position's `stop_loss` to 42 — a non-terminal field of
a closed position changes, contradicting the claim's immutability part. -/
theorem C7_counterexample :
    (exC1.findPos 0).map (·.status) = some .closed ∧
    (exC1.findPos 0).map (·.stop_loss) = some 50 ∧
    (exC1.modify_position 0 (some 42) none).2 = .success ∧
    ((exC1.modify_position 0 (some 42) none).1.findPos 0).map
        (·.stop_loss) = some 42 := by
  refine ⟨?_, ?_, ?_, ?_⟩ <;>
    norm_num [exC1, exC1open, ExecState.init, ExecState.open_position,
      ExecState.close_position, ExecState.modify_position,
      ExecState.validate_position, ExecState.get_account_info,
      ExecState.findPos, Position.margin_used, Direction.ofString,
      List.find?, Direction.long_ne_short, Direction.short_ne_long,
      PositionStatus.opn_ne_closed, PositionStatus.closed_ne_opn]

/-- **C7 (amended).** For every position already closed (in a ledger with
distinct position ids and a fresh id counter): the transition to closed
can not happen again — `close_position` fails without touching the state
and the stop-loss/take-profit pass of `update_price` skips it, leaving the
position intact — and no operation changes its fields, EXCEPT that
`modify_position` still succeeds and may rewrite its `stop_loss` and
`take_profit`. -/
theorem C7_amended (s : ExecState) (pos : Position)
    (hnd : (s.positions.map (·.id)).Nodup)
    (hfresh : ∀ q ∈ s.positions, q.id < s.nextId)
    (hmem : pos ∈ s.positions) (hst : pos.status = .closed) :
    (∀ r c t, (s.close_position pos.id r c t).1 = s ∧
      ((s.close_position pos.id r c t).2 = .invalidRatio ∨
       (s.close_position pos.id r c t).2 = .alreadyClosed)) ∧
    (∀ p t, pos ∈ (s.update_price p t).1.positions) ∧
    (∀ sl tp, (s.modify_position pos.id sl tp).2 = .success ∧
      (s.modify_position pos.id sl tp).1.positions
        = s.positions.map fun q =>
            if q.id = pos.id then
              { q with
                  stop_loss := sl.getD q.stop_loss
                  take_profit := tp.getD q.take_profit }
            else q) := by
  have hfind : s.findPos pos.id = some pos := findPos_of_nodup s pos hnd hmem
  refine ⟨?_, ?_, ?_⟩
  · intro r c t
    unfold ExecState.close_position
    rw [hfind]
    dsimp only
    by_cases hr : r ≤ 0 ∨ r > 1
    · rw [if_pos hr]
      exact ⟨rfl, Or.inl rfl⟩
    · rw [if_neg hr, if_pos hst]
      exact ⟨rfl, Or.inr rfl⟩
  · intro p t
    unfold ExecState.update_price
    cases h : s.last_price with
    | none =>
      have h1 : s.check_and_trigger_plans p t
          = ({ s with last_price := some p }, []) := by
        unfold ExecState.check_and_trigger_plans
        rw [h]
      rw [h1]
      dsimp only
      show pos ∈ (ExecState.check_sltp _ p t).1.positions
      unfold ExecState.check_sltp
      refine sltp_foldl_preserves p t _ pos ?_ _ _ hmem
      intro x hx hxo hxid
      have hxpos : x = pos := List.inj_on_of_nodup_map hnd hx hmem hxid
      rw [hxpos, hst] at hxo
      exact PositionStatus.closed_ne_opn hxo
    | some last =>
      have h1 : s.check_and_trigger_plans p t
          = s.plans.foldl (ctpStep p last t) (s, []) := by
        unfold ExecState.check_and_trigger_plans
        rw [h]
      rw [h1]
      dsimp only
      show pos ∈ (ExecState.check_sltp _ p t).1.positions
      unfold ExecState.check_sltp
      refine sltp_foldl_preserves p t _ pos ?_ _ _
        (ctp_foldl_positions_mem p last t s.plans s [] pos hmem)
      intro x hx hxo hxid
      rcases ctp_foldl_positions_char p last t s.plans s [] x hx with
        hmem' | hge
      · have hxpos : x = pos := List.inj_on_of_nodup_map hnd hmem' hmem hxid
        rw [hxpos, hst] at hxo
        exact PositionStatus.closed_ne_opn hxo
      · have hlt : pos.id < s.nextId := hfresh pos hmem
        rw [hxid] at hge
        exact absurd hlt (not_lt.mpr hge)
  · intro sl tp
    unfold ExecState.modify_position
    rw [hfind]
    dsimp only
    refine ⟨rfl, ?_⟩
    refine List.map_congr_left fun q hq => ?_
    by_cases hqid : q.id = pos.id
    · have hqpos : q = pos := List.inj_on_of_nodup_map hnd hq hmem hqid
      subst hqpos
      simp only [if_pos hqid]
    · simp only [if_neg hqid]

/-- A closed position, for the C7 witness. -/
def posC7 : Position :=
  { id := 0
    symbol := "BTC"
    direction := .long
    entry_price := 100
    amount := 100
    leverage := 2
    stop_loss := 50
    take_profit := 200
    open_time := 1
    status := .closed
    close_time := some 2
    close_price := some 100
    realized_pnl := 0 }

/-- Ledger holding only `posC7`. -/
def exC7w : ExecState :=
  { initial_balance := 1000
    fee_rate := 0
    max_position_ratio := 1
    max_leverage := 10
    min_stop_loss_percent := 0
    total_balance := 1000
    positions := [posC7]
    plans := []
    last_price := some 100
    nextId := 1 }

/-- Witness for `C7_amended` at the concrete ledger `exC7w`. -/
theorem C7_amended_witness :
    ((exC7w.positions.map (·.id)).Nodup ∧
      (∀ q ∈ exC7w.positions, q.id < exC7w.nextId) ∧
      posC7 ∈ exC7w.positions ∧ posC7.status = .closed) ∧
    ((∀ r c t, (exC7w.close_position posC7.id r c t).1 = exC7w ∧
       ((exC7w.close_position posC7.id r c t).2 = .invalidRatio ∨
        (exC7w.close_position posC7.id r c t).2 = .alreadyClosed)) ∧
     (∀ p t, posC7 ∈ (exC7w.update_price p t).1.positions) ∧
     (∀ sl tp, (exC7w.modify_position posC7.id sl tp).2 = .success ∧
       (exC7w.modify_position posC7.id sl tp).1.positions
         = exC7w.positions.map fun q =>
             if q.id = posC7.id then
               { q with
                   stop_loss := sl.getD q.stop_loss
                   take_profit := tp.getD q.take_profit }
             else q)) :=
  ⟨⟨by decide,
    by
      intro q hq
      rw [List.mem_singleton.mp hq]
      decide,
    List.mem_singleton.mpr rfl, by decide⟩,
   C7_amended exC7w posC7 (by decide)
     (by
       intro q hq
       rw [List.mem_singleton.mp hq]
       decide)
     (List.mem_singleton.mpr rfl) (by decide)⟩

/-! ### C5: a plan fires at most once -/

/-- Run one `update_price` per element of the trace (price, wall-clock). -/
def priceTrace (s : ExecState) : List (ℚ × ℕ) → ExecState
  | [] => s
  | (p, t) :: rest => priceTrace (s.update_price p t).1 rest

/-- Number of times plan `pid` fires along a trace of `update_price` calls:
each triggered-list entry for `pid` corresponds to exactly one
`open_position` call spawned by the plan. -/
def fireCount (s : ExecState) (pid : ℕ) : List (ℚ × ℕ) → ℕ
  | [] => 0
  | (p, t) :: rest =>
    ((s.update_price p t).2.triggered_plans.filter
        (·.plan_id = pid)).length
      + fireCount (s.update_price p t).1 pid rest

theorem update_price_triggered (s : ExecState) (p : ℚ) (t : ℕ) :
    (s.update_price p t).2.triggered_plans
      = match s.last_price with
        | none => []
        | some last => (s.plans.foldl (ctpStep p last t) (s, [])).2 := by
  unfold ExecState.update_price
  cases h : s.last_price with
  | none =>
    have h1 : s.check_and_trigger_plans p t
        = ({ s with last_price := some p }, []) := by
      unfold ExecState.check_and_trigger_plans
      rw [h]
    rw [h1]
  | some last =>
    have h1 : s.check_and_trigger_plans p t
        = s.plans.foldl (ctpStep p last t) (s, []) := by
      unfold ExecState.check_and_trigger_plans
      rw [h]
    rw [h1]

theorem update_price_triggered_ids (s : ExecState) (p : ℚ) (t : ℕ) :
    ((s.update_price p t).2.triggered_plans).map (·.plan_id)
      = match s.last_price with
        | none => []
        | some last => firedIds p last s.plans := by
  rw [update_price_triggered]
  cases s.last_price with
  | none => rfl
  | some last =>
    have := ctp_foldl_triggered_ids p last t s.plans s []
    simpa using this

theorem triggered_filter_length (l : List TriggeredEntry) (pid : ℕ) :
    (l.filter (·.plan_id = pid)).length = (l.map (·.plan_id)).count pid := by
  rw [List.count_eq_countP, List.countP_map, List.countP_eq_length_filter]
  rfl

/-- Per update, a plan id fires at most once (the snapshot holds each id at
most once when plan ids are distinct). -/
theorem step_fire_le_one (s : ExecState) (p : ℚ) (t : ℕ) (pid : ℕ)
    (hnd : (s.plans.map (·.id)).Nodup) :
    ((s.update_price p t).2.triggered_plans.filter
        (·.plan_id = pid)).length ≤ 1 := by
  rw [triggered_filter_length, update_price_triggered_ids]
  cases s.last_price with
  | none => simp
  | some last =>
    have hsub : (firedIds p last s.plans).Sublist (s.plans.map (·.id)) :=
      (List.filter_sublist s.plans).map _
    exact le_trans (hsub.count_le pid)
      (List.nodup_iff_count_le_one.mp hnd pid)

theorem update_price_plan_ids (s : ExecState) (p : ℚ) (t : ℕ) :
    ((s.update_price p t).1.plans).map (·.id) = s.plans.map (·.id) := by
  rw [update_price_plans]
  cases s.last_price with
  | none => rfl
  | some last =>
    rw [List.map_map]
    exact List.map_congr_left fun q _ => markIf_id_eq _ q

/-- "Plan `pid` can no longer fire": every stored plan with that id is no
longer pending. -/
def PlanSpent (s : ExecState) (pid : ℕ) : Prop :=
  ∀ q ∈ s.plans, q.id = pid → q.status ≠ .pending

theorem not_fired_of_spent (s : ExecState) (p : ℚ) (t : ℕ) (pid : ℕ)
    (hP : PlanSpent s pid) :
    (s.update_price p t).2.triggered_plans.filter (·.plan_id = pid)
      = [] := by
  refine List.filter_eq_nil_iff.mpr fun e he => ?_
  simp only [decide_eq_true_eq]
  intro hid
  have hmem : e.plan_id ∈
      ((s.update_price p t).2.triggered_plans).map (·.plan_id) :=
    List.mem_map_of_mem _ he
  rw [update_price_triggered_ids] at hmem
  revert hmem
  cases s.last_price with
  | none => exact fun hmem => absurd hmem (List.not_mem_nil _)
  | some last =>
    intro hmem
    rcases (mem_firedIds p last s.plans e.plan_id).mp hmem with
      ⟨q, hq, hfire, hqid⟩
    exact hP q hq (hqid.trans hid) (check_trigger_pending q p last hfire)

theorem spent_preserved (s : ExecState) (p : ℚ) (t : ℕ) (pid : ℕ)
    (hP : PlanSpent s pid) : PlanSpent (s.update_price p t).1 pid := by
  intro q' hq' hid'
  rw [update_price_plans] at hq'
  revert hq'
  cases s.last_price with
  | none => exact fun hq' => hP q' hq' hid'
  | some last =>
    intro hq'
    rcases List.mem_map.mp hq' with ⟨q, hq, himg⟩
    have hqid : q.id = pid := by
      rw [← hid', ← himg, markIf_id_eq]
    subst himg
    unfold markIf
    split
    · exact PlanStatus.triggered_ne_pending
    · exact hP q hq hqid

theorem spent_after_fire (s : ExecState) (p : ℚ) (t : ℕ) (pid : ℕ)
    (hfire : pid ∈
      ((s.update_price p t).2.triggered_plans).map (·.plan_id)) :
    PlanSpent (s.update_price p t).1 pid := by
  rw [update_price_triggered_ids] at hfire
  intro q' hq' hid'
  rw [update_price_plans] at hq'
  revert hfire hq'
  cases s.last_price with
  | none => exact fun hfire => absurd hfire (List.not_mem_nil _)
  | some last =>
    intro hfire hq'
    rcases List.mem_map.mp hq' with ⟨q, _hq, himg⟩
    have hqid : q.id = pid := by
      rw [← hid', ← himg, markIf_id_eq]
    subst himg
    unfold markIf
    rw [if_pos (hqid ▸ hfire)]
    exact PlanStatus.triggered_ne_pending

theorem fireCount_zero_of_spent (pid : ℕ) (tr : List (ℚ × ℕ)) :
    ∀ s : ExecState, PlanSpent s pid → fireCount s pid tr = 0 := by
  induction tr with
  | nil => exact fun s _ => rfl
  | cons pt rest ih =>
    rcases pt with ⟨p, t⟩
    intro s hP
    simp only [fireCount]
    rw [not_fired_of_spent s p t pid hP, ih _ (spent_preserved s p t pid hP)]
    rfl

/-- **C5.** For every plan and every sequence of `update_price` calls, the
plan spawns at most one `open_position` call: its id appears in at most one
triggered-plan entry over the whole trace — when a crossing fires it, its
status is set to triggered regardless of whether the resulting
`open_position` succeeded (no assumption is made on the recorded result),
and no later price update fires it again. -/
theorem C5_plan_fires_at_most_once (s : ExecState) (pid : ℕ)
    (hnd : (s.plans.map (·.id)).Nodup) (tr : List (ℚ × ℕ)) :
    fireCount s pid tr ≤ 1 ∧
    (∀ (p : ℚ) (t : ℕ) (e : TriggeredEntry),
      e ∈ (s.update_price p t).2.triggered_plans →
      ∀ q ∈ (s.update_price p t).1.plans, q.id = e.plan_id →
        q.status = .triggered) := by
  constructor
  · induction tr generalizing s with
    | nil => exact Nat.zero_le 1
    | cons pt rest ih =>
      rcases pt with ⟨p, t⟩
      simp only [fireCount]
      by_cases hfire : pid ∈
          ((s.update_price p t).2.triggered_plans).map (·.plan_id)
      · rw [fireCount_zero_of_spent pid rest _
          (spent_after_fire s p t pid hfire)]
        rw [Nat.add_zero]
        exact step_fire_le_one s p t pid hnd
      · have hzero : (s.update_price p t).2.triggered_plans.filter
            (·.plan_id = pid) = [] := by
          refine List.filter_eq_nil_iff.mpr fun e he => ?_
          simp only [decide_eq_true_eq]
          intro hid
          exact hfire (hid ▸ List.mem_map_of_mem _ he)
        rw [hzero]
        rw [List.length_nil, Nat.zero_add]
        refine ih _ ?_
        rw [update_price_plan_ids]
        exact hnd
  · intro p t e he q hq hid
    have hfire : e.plan_id ∈
        ((s.update_price p t).2.triggered_plans).map (·.plan_id) :=
      List.mem_map_of_mem _ he
    rw [update_price_triggered_ids] at hfire
    rw [update_price_plans] at hq
    cases hlast : s.last_price with
    | none =>
      rw [hlast] at hfire
      exact absurd hfire (List.not_mem_nil _)
    | some last =>
      rw [hlast] at hfire hq
      rcases List.mem_map.mp hq with ⟨q0, _hq0, himg⟩
      have hq0id : q0.id = e.plan_id := by
        rw [← hid, ← himg, markIf_id_eq]
      subst himg
      unfold markIf
      rw [if_pos (hq0id ▸ hfire)]

/-- A pending long plan with trigger 105, for the C5 witness. -/
def plC5 : TradingPlan :=
  { id := 0
    symbol := "BTC"
    trigger_price := 105
    direction := .long
    amount := 100
    leverage := 2
    stop_loss := 90
    take_profit := 200
    create_time := 1 }

/-- Ledger holding only `plC5`, cursor seeded at 100. -/
def exC5w : ExecState :=
  { initial_balance := 1000
    fee_rate := 0
    max_position_ratio := 1
    max_leverage := 10
    min_stop_loss_percent := 0
    total_balance := 1000
    positions := []
    plans := [plC5]
    last_price := some 100
    nextId := 1 }

/-- Witness for `C5_plan_fires_at_most_once`: the price path
100→104→106→104→107 crosses the trigger at the 106 tick and oscillates
above it afterwards. -/
theorem C5_witness :
    (exC5w.plans.map (·.id)).Nodup ∧
    (fireCount exC5w 0 [(104, 2), (106, 3), (104, 4), (107, 5)] ≤ 1 ∧
     (∀ (p : ℚ) (t : ℕ) (e : TriggeredEntry),
       e ∈ (exC5w.update_price p t).2.triggered_plans →
       ∀ q ∈ (exC5w.update_price p t).1.plans, q.id = e.plan_id →
         q.status = .triggered)) :=
  ⟨by decide,
   C5_plan_fires_at_most_once exC5w 0 (by decide)
     [(104, 2), (106, 3), (104, 4), (107, 5)]⟩

end AITrader
